import Mathlib

/-!
Shallow embedding of the RecipeSmith crafting plugin (src/lib.rs).

Rust `HashMap` values are modelled as association lists (`List (κ × α)`)
with first-match lookup; every map the program builds has pairwise
distinct keys, and iteration order is modelled by the list order (a
`HashMap` iterates in an arbitrary order, so any fixed order is one of
its possible behaviours).  Rust `u32` arithmetic is modelled on `Nat`
with explicit reduction modulo `2 ^ 32` at the operations the source
performs (release-mode wrapping semantics).  The `tokio` sleep inside
`craft` has no effect on any modelled state and is omitted; fallible
operations return `Except`.  File input and serde/csv parsing are
external collaborators and enter as function parameters.
-/

/-- Modulus of Rust `u32` arithmetic. -/
def U32MOD : Nat := 2 ^ 32

/-- Wrapping `u32` subtraction, the release-mode meaning of `a - b` on `u32`.
For `b ≤ a < 2 ^ 32` it agrees with plain subtraction. -/
def wrapSub (a b : Nat) : Nat := (a + (U32MOD - b % U32MOD)) % U32MOD

/-- Model of `Ingredient` from src/lib.rs (quantity is a `u32`). -/
structure Ingredient where
  name : String
  quantity : Nat
  recipe_craftable : Bool
deriving DecidableEq

/-- Model of `Crafter` from src/lib.rs. -/
structure Crafter where
  name : String
deriving DecidableEq

/-- Model of `Recipe` from src/lib.rs (`base_cook_time` and `cook_count` are `u32`). -/
structure Recipe where
  name : String
  ingredients : List Ingredient
  outcome : String
  crafters : List Crafter
  base_cook_time : Nat
  cook_count : Nat
deriving DecidableEq

/-- Model of `Recipe::increment_cook_count`: `self.cook_count += 1` on a `u32`. -/
def Recipe.increment_cook_count (r : Recipe) : Recipe :=
  { r with cook_count := (r.cook_count + 1) % U32MOD }

/-- Model of `Recipe::is_mastered`: `self.cook_count >= 10`. -/
def Recipe.is_mastered (r : Recipe) : Bool :=
  decide (10 ≤ r.cook_count)

/-- Model of `Item` from src/lib.rs; the `serde_json::Value` metadata payload is opaque
to every modelled operation and is represented by `String`. -/
structure Item where
  name : String
  model : Option String
  meta_tags : List (String × String)
deriving DecidableEq

/-- Model of `PlayerInventory` from src/lib.rs: slot index (`u32`) to optional item. -/
structure PlayerInventory where
  slots : List (Nat × Option Item)
deriving DecidableEq

/-- Model of `HashMap::get` on the association-list model: first entry with the key. -/
def lookupA {κ α : Type} [DecidableEq κ] : List (κ × α) → κ → Option α
  | [], _ => none
  | (k', v) :: rest, k => if k' = k then some v else lookupA rest k

/-- Model of `HashMap::insert` on the association-list model: replace the entry with
this key if present, otherwise append a fresh entry. -/
def insertEntry {κ α : Type} [DecidableEq κ] : List (κ × α) → κ → α → List (κ × α)
  | [], k, v => [(k, v)]
  | (k', v') :: rest, k, v =>
      if k' = k then (k, v) :: rest else (k', v') :: insertEntry rest k v

/-- Model of `HashMap::get_mut` followed by an in-place update: rewrite the entry with
this key (if any) through `f`. -/
def updateEntry {κ α : Type} [DecidableEq κ] : List (κ × α) → κ → (α → α) → List (κ × α)
  | [], _, _ => []
  | (k', v) :: rest, k, f =>
      if k' = k then (k', f v) :: rest else (k', v) :: updateEntry rest k f

/-- Model of `RecipeBook` from src/lib.rs. -/
structure RecipeBook where
  recipes : List (String × Recipe)
  crafters : List (Crafter × List String)
deriving DecidableEq

/-- Model of `self.crafters.entry(crafter).or_insert_with(Vec::new).push(name)`. -/
def pushCrafterIndex : List (Crafter × List String) → Crafter → String → List (Crafter × List String)
  | [], c, n => [(c, [n])]
  | (c', l) :: rest, c, n =>
      if c' = c then (c', l ++ [n]) :: rest else (c', l) :: pushCrafterIndex rest c n

/-- Model of `RecipeBook::add_recipe`. -/
def RecipeBook.add_recipe (book : RecipeBook) (recipe : Recipe) : RecipeBook :=
  { recipes := insertEntry book.recipes recipe.name recipe
    crafters := recipe.crafters.foldl (fun cs c => pushCrafterIndex cs c recipe.name) book.crafters }

/-- Model of `RecipeBook::get_recipe` (the Rust clone is identity on values). -/
def RecipeBook.get_recipe (book : RecipeBook) (name : String) : Option Recipe :=
  lookupA book.recipes name

/-- The per-ingredient availability check inside `RecipeBook::can_craft`:
`inventory.get(&ingredient.name).map(|i| i.recipe_craftable && i.quantity >= ingredient.quantity).unwrap_or(false)`. -/
def ingredientAvailable (inventory : List (String × Ingredient)) (ingredient : Ingredient) : Bool :=
  match lookupA inventory ingredient.name with
  | some inv_ingredient =>
      inv_ingredient.recipe_craftable && decide (ingredient.quantity ≤ inv_ingredient.quantity)
  | none => false

/-- Model of `RecipeBook::can_craft`. -/
def RecipeBook.can_craft (book : RecipeBook) (recipe_name : String)
    (inventory : List (String × Ingredient)) : Bool :=
  match book.get_recipe recipe_name with
  | some recipe => recipe.ingredients.all (ingredientAvailable inventory)
  | none => false

/-- One step of the consume loop inside `RecipeBook::craft`:
`inventory.get_mut(&ingredient.name)` then `quantity -= ingredient.quantity`. -/
def consumeStep (inv : List (String × Ingredient)) (ingredient : Ingredient) :
    List (String × Ingredient) :=
  updateEntry inv ingredient.name fun inv_ingredient =>
    { inv_ingredient with quantity := wrapSub inv_ingredient.quantity ingredient.quantity }

/-- Model of `RecipeBook::craft`, with the `&mut` state passed explicitly: returns the
outcome option together with the updated book and inventory map.  The
`tokio::time::sleep` between consuming and the `cook_count` update touches no
modelled state. -/
def RecipeBook.craft (book : RecipeBook) (recipe_name : String)
    (inventory : List (String × Ingredient)) :
    Option String × RecipeBook × List (String × Ingredient) :=
  if book.can_craft recipe_name inventory then
    match book.get_recipe recipe_name with
    | none => (none, book, inventory)
    | some recipe =>
        let inventory1 := recipe.ingredients.foldl consumeStep inventory
        let book1 : RecipeBook :=
          { book with recipes := updateEntry book.recipes recipe_name Recipe.increment_cook_count }
        (some recipe.outcome, book1, inventory1)
  else (none, book, inventory)

/-- Rust `str::ends_with` on the file names fed to the importer. -/
def strEndsWith (s suffix : String) : Bool :=
  List.isSuffixOf suffix.data s.data

/-- The row loop of the CSV branch of the importer: rows are deserialized one
at a time; the first failing row aborts the rest but keeps earlier additions. -/
def csvFold : RecipeBook → List (Except String Recipe) → Except String Unit × RecipeBook
  | book, [] => (Except.ok (), book)
  | book, Except.ok r :: rest => csvFold (book.add_recipe r) rest
  | book, Except.error e :: _ => (Except.error e, book)

/-- Model of `RecipeBook::import_recipes_from_file`.  `fs` models `File::open`
(`none` = open fails), `jsonParse` models `serde_json::from_reader` on the
whole file, `csvRows` models the csv reader's per-row deserialization. -/
def RecipeBook.importRecipesFromFile
    (jsonParse : String → Except String (List Recipe))
    (csvRows : String → List (Except String Recipe))
    (fs : String → Option String)
    (book : RecipeBook) (filename : String) :
    Except String Unit × RecipeBook :=
  match fs filename with
  | none => (Except.error ("file open failed"), book)
  | some content =>
      if strEndsWith filename (".json") then
        match jsonParse content with
        | Except.ok recipes => (Except.ok (), recipes.foldl RecipeBook.add_recipe book)
        | Except.error e => (Except.error e, book)
      else if strEndsWith filename (".csv") then
        csvFold book (csvRows content)
      else
        (Except.error ("Unsupported file format"), book)

/-- The transient ingredient-map construction at the top of
`RecipeSmith::craft_item`: each occupied slot contributes
`(item.name, Ingredient { name: item.name, quantity: 1, recipe_craftable: true })`,
collected into a `HashMap` (later slots overwrite earlier ones of the same name). -/
def buildStep (m : List (String × Ingredient)) (p : Nat × Option Item) :
    List (String × Ingredient) :=
  match p.2 with
  | some item => insertEntry m item.name { name := item.name, quantity := 1, recipe_craftable := true }
  | none => m

/-- The whole transient map built by `RecipeSmith::craft_item`. -/
def buildInventoryMap (slots : List (Nat × Option Item)) : List (String × Ingredient) :=
  slots.foldl buildStep []

/-- The distinct-slot item names the build walks over (with multiplicity). -/
def occupiedNames (slots : List (Nat × Option Item)) : List String :=
  slots.filterMap fun p => p.2.map Item.name

/-- Model of `RecipeSmith::get_player_inventory`: a cloned read of the registry. -/
def get_player_inventory (reg : List (String × PlayerInventory)) (player_id : String) :
    Option PlayerInventory :=
  lookupA reg player_id

/-- The slot loop `for (slot, item_opt) { if item_opt.is_none() { *item_opt = Some(item) } }`:
place `item` in the first empty slot, `none` when every slot is occupied. -/
def setFirstEmpty : List (Nat × Option Item) → Item → Option (List (Nat × Option Item))
  | [], _ => none
  | (slot, none) :: rest, item => some ((slot, some item) :: rest)
  | (slot, some it) :: rest, item =>
      (setFirstEmpty rest item).map fun rest' => (slot, some it) :: rest'

/-- The slot loop that finds the first slot holding an item with the wanted
name and `take()`s it, returning the item and the remaining slots. -/
def takeFirstNamed : List (Nat × Option Item) → String → Option (Item × List (Nat × Option Item))
  | [], _ => none
  | (slot, some it) :: rest, n =>
      if it.name = n then some (it, (slot, none) :: rest)
      else (takeFirstNamed rest n).map fun q => (q.1, (slot, some it) :: q.2)
  | (slot, none) :: rest, n =>
      (takeFirstNamed rest n).map fun q => (q.1, (slot, none) :: q.2)

/-- Model of `RecipeSmith::add_item_to_player_inventory`.  The source mutates only its
local clone of the inventory and then evaluates
`self.get_player_inventory("player_id")`, discarding the result; the registry
is never written, so it is returned unchanged on every path. -/
def add_item_to_player_inventory (reg : List (String × PlayerInventory))
    (player_id : String) (item : Item) :
    Except String Unit × List (String × PlayerInventory) :=
  match get_player_inventory reg player_id with
  | none => (Except.error ("Player inventory not found"), reg)
  | some inventory =>
      match setFirstEmpty inventory.slots item with
      | some _ =>
          let _ := get_player_inventory reg ("player_id")
          (Except.ok (), reg)
      | none => (Except.error ("Inventory is full"), reg)

/-- Model of `RecipeSmith::remove_item_from_player_inventory`; same local-clone shape
as the add operation, the registry is never written. -/
def remove_item_from_player_inventory (reg : List (String × PlayerInventory))
    (player_id : String) (item_name : String) :
    Except String Unit × List (String × PlayerInventory) :=
  match get_player_inventory reg player_id with
  | none => (Except.error ("Player inventory not found"), reg)
  | some inventory =>
      match takeFirstNamed inventory.slots item_name with
      | some _ =>
          let _ := get_player_inventory reg ("player_id")
          (Except.ok (), reg)
      | none => (Except.error ("Item not found in inventory"), reg)

/-- Model of `RecipeSmith::transfer_item` with the two `&mut` inventories passed and
returned explicitly. -/
def transfer_item (from_inventory to_inventory : PlayerInventory) (item_name : String) :
    Except String Unit × PlayerInventory × PlayerInventory :=
  match takeFirstNamed from_inventory.slots item_name with
  | none => (Except.error ("Item not found in source inventory"), from_inventory, to_inventory)
  | some (item, fromSlots) =>
      match setFirstEmpty to_inventory.slots item with
      | some toSlots => (Except.ok (), ⟨fromSlots⟩, ⟨toSlots⟩)
      | none =>
          match setFirstEmpty fromSlots item with
          | some restored =>
              (Except.error ("Destination inventory is full"), ⟨restored⟩, to_inventory)
          | none => (Except.error ("Destination inventory is full"), ⟨fromSlots⟩, to_inventory)

/-- Predicate used to count slots that hold an item with a given name. -/
def itemNamed (n : String) (p : Nat × Option Item) : Bool :=
  match p.2 with
  | some it => decide (it.name = n)
  | none => false

/-- Number of slots holding an item named `n`. -/
def countItem (slots : List (Nat × Option Item)) (n : String) : Nat :=
  slots.countP (itemNamed n)

/-- Drive `RecipeBook::craft` once per inventory in the list, threading the
book through; returns the final book and the number of successful crafts. -/
def runCrafts (book : RecipeBook) (name : String) :
    List (List (String × Ingredient)) → RecipeBook × Nat
  | [] => (book, 0)
  | inv :: rest =>
      let r := book.craft name inv
      let t := runCrafts r.2.1 name rest
      (t.1, (if r.1.isSome then 1 else 0) + t.2)

/-- The `cook_count` of the catalog entry for `name`. -/
def cookCountOf (book : RecipeBook) (name : String) : Option Nat :=
  (book.get_recipe name).map Recipe.cook_count

/-- The mastery report of the catalog entry for `name`. -/
def masteredOf (book : RecipeBook) (name : String) : Option Bool :=
  (book.get_recipe name).map Recipe.is_mastered

/-- One entry-wise comparison behind `supersetInv`. -/
def supersetEntry (inv' : List (String × Ingredient)) (p : String × Ingredient) : Bool :=
  match lookupA inv' p.1 with
  | some e' => (!p.2.recipe_craftable || e'.recipe_craftable) && decide (p.2.quantity ≤ e'.quantity)
  | none => false

/-- The claim's supply-order on inventory maps: `inv'` contains every entry of
`inv` with the craftable flag preserved and at least the quantity. -/
def supersetInv (inv inv' : List (String × Ingredient)) : Bool :=
  inv.all (supersetEntry inv')

/-- Sample recipe used by concrete witnesses. -/
def breadRecipe : Recipe :=
  { name := "Bread"
    ingredients := [⟨"Flour", 2, false⟩, ⟨"Water", 1, false⟩]
    outcome := "Bread"
    crafters := [⟨"Oven"⟩]
    base_cook_time := 3
    cook_count := 0 }

/-- Sample one-recipe catalog. -/
def breadBook : RecipeBook :=
  { recipes := [("Bread", breadRecipe)], crafters := [(⟨"Oven"⟩, ["Bread"])] }

/-- Sample inventory map that can craft `breadRecipe` exactly once. -/
def breadInv : List (String × Ingredient) :=
  [("Flour", ⟨"Flour", 2, true⟩), ("Water", ⟨"Water", 1, true⟩)]

/-- Inventory map dominating `breadInv` entry-wise. -/
def biggerInv : List (String × Ingredient) :=
  [("Flour", ⟨"Flour", 5, true⟩), ("Water", ⟨"Water", 2, true⟩), ("Egg", ⟨"Egg", 1, false⟩)]

/-- Recipe that lists the same ingredient name twice. -/
def doubleRecipe : Recipe :=
  { name := "DoubleFlour"
    ingredients := [⟨"Flour", 2, false⟩, ⟨"Flour", 2, false⟩]
    outcome := "Paste"
    crafters := []
    base_cook_time := 0
    cook_count := 0 }

/-- Catalog holding only `doubleRecipe`. -/
def doubleBook : RecipeBook :=
  { recipes := [("DoubleFlour", doubleRecipe)], crafters := [] }

/-- Inventory with three craftable flour: enough for each per-ingredient check
of `doubleRecipe` but not for the summed requirement. -/
def flour3Inv : List (String × Ingredient) :=
  [("Flour", ⟨"Flour", 3, true⟩)]

/-- Recipe whose `u32` cook counter sits at the maximum. -/
def maxedRecipe : Recipe :=
  { name := "Maxed"
    ingredients := []
    outcome := "X"
    crafters := []
    base_cook_time := 0
    cook_count := 4294967295 }

/-- Sample items for inventory-level witnesses. -/
def swordItem : Item := ⟨"Sword", none, []⟩

/-- A second sample item. -/
def rockItem : Item := ⟨"Rock", none, []⟩

/-- Source inventory whose first slot is empty and whose second holds the
sword; on a failed transfer the sword is restored to slot 0, not slot 1. -/
def srcInv : PlayerInventory := ⟨[(0, none), (1, some swordItem)]⟩

/-- A full one-slot destination inventory. -/
def dstInv : PlayerInventory := ⟨[(0, some rockItem)]⟩

/-- Sample player-inventory registry. -/
def regW : List (String × PlayerInventory) :=
  [("alice", ⟨[(0, none), (1, some swordItem)]⟩)]

/-- Trivial import-source stand-ins for witnesses. -/
def fsW : String → Option String := fun _ => some ("content")

/-- JSON parser stand-in for witnesses. -/
def jsonParseW : String → Except String (List Recipe) := fun _ => Except.ok []

/-- CSV row stream stand-in for witnesses. -/
def csvRowsW : String → List (Except String Recipe) := fun _ => []

/-! ### Association-list lemmas -/

theorem lookupA_mem {κ α : Type} [DecidableEq κ] {m : List (κ × α)} {k : κ} {v : α}
    (h : lookupA m k = some v) : (k, v) ∈ m := by
  induction m with
  | nil => simp [lookupA] at h
  | cons p rest ih =>
      obtain ⟨k', v'⟩ := p
      rw [lookupA] at h
      by_cases hk : k' = k
      · rw [if_pos hk] at h
        injection h with h
        subst hk h
        exact List.mem_cons_self _ _
      · rw [if_neg hk] at h
        exact List.mem_cons_of_mem _ (ih h)

theorem lookupA_updateEntry_self {κ α : Type} [DecidableEq κ]
    (m : List (κ × α)) (k : κ) (f : α → α) :
    lookupA (updateEntry m k f) k = (lookupA m k).map f := by
  induction m with
  | nil => rfl
  | cons p rest ih =>
      obtain ⟨k', v⟩ := p
      by_cases hk : k' = k
      · simp [updateEntry, lookupA, hk]
      · simp [updateEntry, lookupA, hk, ih]

theorem lookupA_updateEntry_ne {κ α : Type} [DecidableEq κ]
    (m : List (κ × α)) (k j : κ) (f : α → α) (h : k ≠ j) :
    lookupA (updateEntry m k f) j = lookupA m j := by
  induction m with
  | nil => rfl
  | cons p rest ih =>
      obtain ⟨k', v⟩ := p
      by_cases hk : k' = k
      · subst hk
        simp [updateEntry, lookupA, h]
      · by_cases hj : k' = j
        · simp [updateEntry, lookupA, hk, hj, Ne.symm h]
        · simp [updateEntry, lookupA, hk, hj, ih]

theorem lookupA_insertEntry_self {κ α : Type} [DecidableEq κ]
    (m : List (κ × α)) (k : κ) (v : α) :
    lookupA (insertEntry m k v) k = some v := by
  induction m with
  | nil => simp [insertEntry, lookupA]
  | cons p rest ih =>
      obtain ⟨k', v'⟩ := p
      by_cases hk : k' = k
      · simp [insertEntry, lookupA, hk]
      · simp [insertEntry, lookupA, hk, ih]

theorem lookupA_insertEntry_ne {κ α : Type} [DecidableEq κ]
    (m : List (κ × α)) (k j : κ) (v : α) (h : k ≠ j) :
    lookupA (insertEntry m k v) j = lookupA m j := by
  induction m with
  | nil => simp [insertEntry, lookupA, h]
  | cons p rest ih =>
      obtain ⟨k', v'⟩ := p
      by_cases hk : k' = k
      · subst hk
        simp [insertEntry, lookupA, h]
      · by_cases hj : k' = j
        · simp [insertEntry, lookupA, hk, hj, Ne.symm h]
        · simp [insertEntry, lookupA, hk, hj, ih]

/-! ### Characterizing `can_craft` -/

theorem ingredientAvailable_iff (inventory : List (String × Ingredient)) (ingredient : Ingredient) :
    ingredientAvailable inventory ingredient = true ↔
      ∃ e, lookupA inventory ingredient.name = some e ∧
        e.recipe_craftable = true ∧ ingredient.quantity ≤ e.quantity := by
  unfold ingredientAvailable
  cases he : lookupA inventory ingredient.name with
  | none => simp
  | some e => simp [Bool.and_eq_true]

theorem can_craft_char (book : RecipeBook) (recipe_name : String)
    (inventory : List (String × Ingredient)) :
    book.can_craft recipe_name inventory = true ↔
      ∃ recipe, book.get_recipe recipe_name = some recipe ∧
        ∀ ingredient ∈ recipe.ingredients, ∃ e,
          lookupA inventory ingredient.name = some e ∧
          e.recipe_craftable = true ∧ ingredient.quantity ≤ e.quantity := by
  unfold RecipeBook.can_craft
  cases hr : book.get_recipe recipe_name with
  | none => simp
  | some recipe =>
      simp only [List.all_eq_true]
      constructor
      · intro h
        exact ⟨recipe, rfl, fun ing hing => (ingredientAvailable_iff inventory ing).mp (h ing hing)⟩
      · rintro ⟨recipe2, hr2, hall⟩
        injection hr2 with hr2
        subst hr2
        intro ing hing
        exact (ingredientAvailable_iff inventory ing).mpr (hall ing hing)

/-- C1: whenever `can_craft` is false, `craft` returns `None` and leaves both
the book and the inventory map exactly as they were — no entry changes. -/
theorem craft_noop_when_cannot_craft (book : RecipeBook) (recipe_name : String)
    (inventory : List (String × Ingredient))
    (h : book.can_craft recipe_name inventory = false) :
    book.craft recipe_name inventory = (none, book, inventory) := by
  simp [RecipeBook.craft, h]

/-- C1 witness: a concrete rejected craft is a no-op. -/
theorem craft_noop_when_cannot_craft_witness :
    RecipeBook.craft breadBook ("Cake") breadInv = (none, breadBook, breadInv) :=
  craft_noop_when_cannot_craft breadBook ("Cake") breadInv (by decide)

/-- C3: `can_craft` is true exactly when the recipe exists and every required
ingredient is present in the inventory map with a true craftable flag and at
least the required quantity. -/
theorem can_craft_iff (book : RecipeBook) (recipe_name : String)
    (inventory : List (String × Ingredient)) :
    book.can_craft recipe_name inventory = true ↔
      ∃ recipe, book.get_recipe recipe_name = some recipe ∧
        ∀ ingredient ∈ recipe.ingredients, ∃ e,
          lookupA inventory ingredient.name = some e ∧
          e.recipe_craftable = true ∧ ingredient.quantity ≤ e.quantity :=
  can_craft_char book recipe_name inventory

/-- C3 witness: the characterization instantiated on the bread catalog. -/
theorem can_craft_iff_witness :
    RecipeBook.can_craft breadBook ("Bread") breadInv = true := by
  refine (can_craft_iff breadBook ("Bread") breadInv).mpr ⟨breadRecipe, rfl, ?_⟩
  intro ing hing
  have hmem : ing = (⟨"Flour", 2, false⟩ : Ingredient) ∨ ing = (⟨"Water", 1, false⟩ : Ingredient) := by
    simpa [breadRecipe] using hing
  rcases hmem with rfl | rfl
  · exact ⟨⟨"Flour", 2, true⟩, rfl, rfl, by decide⟩
  · exact ⟨⟨"Water", 1, true⟩, rfl, rfl, by decide⟩

/-- C6: craftability is monotonic in supply — enlarging every entry of the
inventory map (same craftable flag or better, at least the quantity) keeps
`can_craft` true. -/
theorem can_craft_monotone (book : RecipeBook) (recipe_name : String)
    (inv inv' : List (String × Ingredient))
    (hsup : supersetInv inv inv' = true)
    (hc : book.can_craft recipe_name inv = true) :
    book.can_craft recipe_name inv' = true := by
  obtain ⟨recipe, hr, hall⟩ := (can_craft_char book recipe_name inv).mp hc
  refine (can_craft_char book recipe_name inv').mpr ⟨recipe, hr, ?_⟩
  intro ing hing
  obtain ⟨e, he, hflag, hq⟩ := hall ing hing
  have hmem : (ing.name, e) ∈ inv := lookupA_mem he
  have hentry := (List.all_eq_true.mp hsup) (ing.name, e) hmem
  unfold supersetEntry at hentry
  cases he' : lookupA inv' ing.name with
  | none => rw [he'] at hentry; exact absurd hentry (by simp)
  | some e' =>
      rw [he'] at hentry
      rw [Bool.and_eq_true] at hentry
      have hflag' : e'.recipe_craftable = true := by
        have h1 := hentry.1
        rw [hflag] at h1
        simpa using h1
      exact ⟨e', rfl, hflag', le_trans hq (of_decide_eq_true hentry.2)⟩

/-- C6 witness: monotonicity applied to a concrete dominating inventory. -/
theorem can_craft_monotone_witness :
    RecipeBook.can_craft breadBook ("Bread") biggerInv = true :=
  can_craft_monotone breadBook ("Bread") breadInv biggerInv (by decide) (by decide)

/-! ### The transient ingredient map of `craft_item` -/

theorem keys_insertEntry_mem {κ α : Type} [DecidableEq κ]
    (m : List (κ × α)) (k j : κ) (v : α) :
    j ∈ (insertEntry m k v).map Prod.fst ↔ j = k ∨ j ∈ m.map Prod.fst := by
  induction m with
  | nil => simp [insertEntry]
  | cons p rest ih =>
      obtain ⟨k', v'⟩ := p
      by_cases hk : k' = k
      · subst hk
        simp [insertEntry]
      · simp [insertEntry, hk, ih]
        tauto

theorem keys_insertEntry_nodup {κ α : Type} [DecidableEq κ]
    (m : List (κ × α)) (k : κ) (v : α)
    (h : (m.map Prod.fst).Nodup) :
    ((insertEntry m k v).map Prod.fst).Nodup := by
  induction m with
  | nil => simp [insertEntry]
  | cons p rest ih =>
      obtain ⟨k', v'⟩ := p
      rw [List.map_cons, List.nodup_cons] at h
      by_cases hk : k' = k
      · subst hk
        simpa [insertEntry] using h
      · rw [insertEntry, if_neg hk, List.map_cons, List.nodup_cons]
        refine ⟨?_, ih h.2⟩
        rw [keys_insertEntry_mem]
        rintro (rfl | hmem)
        · exact hk rfl
        · exact h.1 hmem

theorem build_go_lookup :
    ∀ (slots : List (Nat × Option Item)) (acc : List (String × Ingredient)) (name : String),
      lookupA (slots.foldl buildStep acc) name =
        if name ∈ occupiedNames slots
        then some { name := name, quantity := 1, recipe_craftable := true }
        else lookupA acc name := by
  intro slots
  induction slots with
  | nil => intro acc name; simp [occupiedNames]
  | cons p rest ih =>
      intro acc name
      obtain ⟨slot, o⟩ := p
      cases o with
      | none =>
          rw [List.foldl_cons, ih]
          simp [occupiedNames, buildStep, List.filterMap_cons]
      | some item =>
          rw [List.foldl_cons, ih]
          have hocc : occupiedNames ((slot, some item) :: rest) = item.name :: occupiedNames rest := by
            simp [occupiedNames]
          rw [hocc]
          by_cases hrest : name ∈ occupiedNames rest
          · simp [hrest]
          · by_cases hname : name = item.name
            · subst hname
              simp [hrest, buildStep, lookupA_insertEntry_self]
            · simp [hrest, hname, buildStep,
                lookupA_insertEntry_ne _ item.name name _ (fun hc => hname hc.symm)]

theorem build_go_keys_nodup :
    ∀ (slots : List (Nat × Option Item)) (acc : List (String × Ingredient)),
      ((acc.map Prod.fst).Nodup) → (((slots.foldl buildStep acc).map Prod.fst).Nodup) := by
  intro slots
  induction slots with
  | nil => intro acc h; simpa using h
  | cons p rest ih =>
      intro acc h
      obtain ⟨slot, o⟩ := p
      cases o with
      | none => rw [List.foldl_cons]; exact ih acc h
      | some item =>
          rw [List.foldl_cons]
          exact ih _ (keys_insertEntry_nodup acc item.name _ h)

/-- C7: the transient ingredient map built inside `craft_item` has pairwise
distinct keys (one entry per distinct occupied item name), and looking up a
name yields `{name, quantity 1, craftable true}` exactly when some occupied
slot holds an item of that name — stacks beyond one unit are not modelled. -/
theorem build_inventory_map_spec (slots : List (Nat × Option Item)) :
    ((buildInventoryMap slots).map Prod.fst).Nodup ∧
      ∀ name, lookupA (buildInventoryMap slots) name =
        if name ∈ occupiedNames slots
        then some { name := name, quantity := 1, recipe_craftable := true }
        else none := by
  constructor
  · exact build_go_keys_nodup slots [] (by simp)
  · intro name
    rw [buildInventoryMap, build_go_lookup]
    rfl

/-- C7 witness: with the sword occupying two slots the map still reports a
single entry of quantity 1. -/
theorem build_inventory_map_spec_witness :
    lookupA (buildInventoryMap [(0, some swordItem), (1, none), (2, some swordItem)]) ("Sword") =
      some { name := "Sword", quantity := 1, recipe_craftable := true } := by
  have h := (build_inventory_map_spec [(0, some swordItem), (1, none), (2, some swordItem)]).2 ("Sword")
  rw [if_pos (by decide)] at h
  exact h

/-! ### Ingredient consumption inside `craft` -/

theorem wrapSub_eq_sub {a b : Nat} (hba : b ≤ a) (ha : a < U32MOD) :
    wrapSub a b = a - b := by
  unfold wrapSub
  have hb : b < U32MOD := lt_of_le_of_lt hba ha
  rw [Nat.mod_eq_of_lt hb]
  have h1 : a + (U32MOD - b) = (a - b) + U32MOD := by omega
  rw [h1, Nat.add_mod_right, Nat.mod_eq_of_lt (by omega)]

theorem consume_lookup_notmem :
    ∀ (ings : List Ingredient) (inv : List (String × Ingredient)) (name : String),
      name ∉ ings.map Ingredient.name →
      lookupA (ings.foldl consumeStep inv) name = lookupA inv name := by
  intro ings
  induction ings with
  | nil => intro inv name _; rfl
  | cons ing rest ih =>
      intro inv name hname
      rw [List.map_cons, List.mem_cons] at hname
      push_neg at hname
      rw [List.foldl_cons, ih _ name hname.2, consumeStep,
        lookupA_updateEntry_ne _ ing.name name _ hname.1.symm]

theorem consume_lookup :
    ∀ (ings : List Ingredient) (inv : List (String × Ingredient)),
      (ings.map Ingredient.name).Nodup →
      ∀ ing ∈ ings,
        lookupA (ings.foldl consumeStep inv) ing.name =
          (lookupA inv ing.name).map
            (fun e => { e with quantity := wrapSub e.quantity ing.quantity }) := by
  intro ings
  induction ings with
  | nil => intro inv _ ing hing; exact absurd hing (List.not_mem_nil ing)
  | cons ing0 rest ih =>
      intro inv hnodup ing hing
      rw [List.map_cons, List.nodup_cons] at hnodup
      rw [List.foldl_cons]
      rcases List.mem_cons.mp hing with rfl | hrest
      · rw [consume_lookup_notmem rest _ ing.name hnodup.1, consumeStep,
          lookupA_updateEntry_self]
      · have hne : ing.name ≠ ing0.name := by
          intro hc
          exact hnodup.1 (hc ▸ List.mem_map_of_mem Ingredient.name hrest)
        rw [ih _ hnodup.2 ing hrest, consumeStep,
          lookupA_updateEntry_ne _ ing0.name ing.name _ hne.symm]

theorem craft_inventory_eq (book : RecipeBook) (recipe_name : String)
    (inventory : List (String × Ingredient)) (recipe : Recipe)
    (hr : book.get_recipe recipe_name = some recipe)
    (hc : book.can_craft recipe_name inventory = true) :
    (book.craft recipe_name inventory).2.2 = recipe.ingredients.foldl consumeStep inventory := by
  simp [RecipeBook.craft, hc, hr]

/-- C4 counterexample: `doubleRecipe` lists Flour twice; the per-ingredient
check accepts an inventory with 3 flour, yet the second `u32` subtraction
underflows and the stored quantity wraps to `2 ^ 32 - 1` instead of being
decremented by the required amount (or stopping at 0). -/
theorem craft_underflow_counterexample :
    RecipeBook.can_craft doubleBook ("DoubleFlour") flour3Inv = true ∧
      lookupA (RecipeBook.craft doubleBook ("DoubleFlour") flour3Inv).2.2 ("Flour") =
        some { name := "Flour", quantity := 4294967295, recipe_craftable := true } := by
  constructor
  · decide
  · decide

/-- C4 (amended): provided the recipe's ingredient names are pairwise distinct
and the inventory holds genuine `u32` quantities, a craft accepted by
`can_craft` decrements each required ingredient's stored quantity by exactly
the required amount; the subtraction never underflows because the required
quantity is at most the stored one (so quantities stay at or above 0, and may
reach exactly 0). -/
theorem craft_consumes_exactly (book : RecipeBook) (recipe_name : String)
    (inventory : List (String × Ingredient)) (recipe : Recipe)
    (hr : book.get_recipe recipe_name = some recipe)
    (hnodup : (recipe.ingredients.map Ingredient.name).Nodup)
    (hbound : ∀ p ∈ inventory, p.2.quantity < U32MOD)
    (hc : book.can_craft recipe_name inventory = true) :
    ∀ ingredient ∈ recipe.ingredients,
      lookupA (book.craft recipe_name inventory).2.2 ingredient.name =
        (lookupA inventory ingredient.name).map
          (fun e => { e with quantity := e.quantity - ingredient.quantity }) ∧
      ∃ e, lookupA inventory ingredient.name = some e ∧ ingredient.quantity ≤ e.quantity := by
  intro ingredient hing
  obtain ⟨recipe2, hr2, hall⟩ := (can_craft_char book recipe_name inventory).mp hc
  rw [hr] at hr2
  injection hr2 with hr2
  subst hr2
  obtain ⟨e, he, _, hq⟩ := hall ingredient hing
  have hb : e.quantity < U32MOD := hbound (ingredient.name, e) (lookupA_mem he)
  constructor
  · rw [craft_inventory_eq book recipe_name inventory recipe hr hc,
      consume_lookup recipe.ingredients inventory hnodup ingredient hing, he]
    simp [wrapSub_eq_sub hq hb]
  · exact ⟨e, he, hq⟩

/-- C4 witness: crafting bread from exactly sufficient flour leaves the flour
entry decremented by the required 2, reaching exactly 0. -/
theorem craft_consumes_exactly_witness :
    lookupA (RecipeBook.craft breadBook ("Bread") breadInv).2.2 ("Flour") =
      (lookupA breadInv ("Flour")).map (fun e => { e with quantity := e.quantity - 2 }) :=
  (craft_consumes_exactly breadBook ("Bread") breadInv breadRecipe rfl (by decide) (by decide)
    (by decide) ⟨"Flour", 2, false⟩ (by decide)).1

/-! ### Cook count evolution across crafts -/

theorem craft_get_recipe_succ (book : RecipeBook) (name : String)
    (inv : List (String × Ingredient)) :
    ((book.craft name inv).2.1).get_recipe name =
      if (book.craft name inv).1.isSome
      then (book.get_recipe name).map Recipe.increment_cook_count
      else book.get_recipe name := by
  by_cases hc : book.can_craft name inv = true
  · cases hr : book.get_recipe name with
    | none => simp [RecipeBook.craft, hc, hr]
    | some recipe =>
        simp only [RecipeBook.craft, hc, hr, if_true, Option.isSome_some]
        show lookupA (updateEntry book.recipes name Recipe.increment_cook_count) name =
          Option.map Recipe.increment_cook_count (some recipe)
        rw [lookupA_updateEntry_self, show lookupA book.recipes name = some recipe from hr]
  · rw [Bool.not_eq_true] at hc
    simp [RecipeBook.craft, hc]

theorem runCrafts_get_recipe (name : String) :
    ∀ (invs : List (List (String × Ingredient))) (book : RecipeBook) (r : Recipe),
      book.get_recipe name = some r → r.cook_count < U32MOD →
      ((runCrafts book name invs).1).get_recipe name =
        some { r with cook_count := (r.cook_count + (runCrafts book name invs).2) % U32MOD } := by
  intro invs
  induction invs with
  | nil =>
      intro book r h hb
      simp only [runCrafts, h, Nat.add_zero, Nat.mod_eq_of_lt hb]
  | cons inv rest ih =>
      intro book r h hb
      have hstep := craft_get_recipe_succ book name inv
      simp only [runCrafts]
      by_cases hs : (book.craft name inv).1.isSome = true
      · rw [if_pos hs] at hstep
        rw [h] at hstep
        have hr1 : ((book.craft name inv).2.1).get_recipe name =
            some (Recipe.increment_cook_count r) := hstep
        have hb1 : (Recipe.increment_cook_count r).cook_count < U32MOD := by
          unfold Recipe.increment_cook_count
          exact Nat.mod_lt _ (by decide)
        have hrec := ih (book.craft name inv).2.1 (Recipe.increment_cook_count r) hr1 hb1
        rw [hs, if_pos rfl, hrec]
        simp only [Recipe.increment_cook_count, Nat.mod_add_mod]
        rw [Nat.add_assoc]
      · rw [Bool.not_eq_true] at hs
        rw [hs] at hstep
        rw [if_neg (by simp)] at hstep
        rw [h] at hstep
        have hrec := ih (book.craft name inv).2.1 r hstep hb
        rw [hs]
        rw [if_neg (by simp)]
        simpa using hrec

/-- C5 counterexample: at the `u32` maximum, `increment_cook_count` wraps the
counter to 0, so it does not "only ever increase" `cook_count`. -/
theorem increment_cook_count_wraps_counterexample :
    (Recipe.increment_cook_count maxedRecipe).cook_count = 0 ∧
      ¬ maxedRecipe.cook_count < (Recipe.increment_cook_count maxedRecipe).cook_count := by
  constructor
  · decide
  · decide

/-- C5 (amended): mastery is `cook_count ≥ 10`; starting from a cook count of
0, any run with exactly 10 successful crafts of the recipe ends with
`cook_count = 10` and the recipe reported mastered, while exactly 9 successes
end unmastered at 9; and `increment_cook_count` strictly increases the counter
whenever it is below the `u32` maximum (at `2 ^ 32 - 1` it wraps to 0). -/
theorem mastery_threshold (book : RecipeBook) (name : String)
    (invs : List (List (String × Ingredient)))
    (h0 : cookCountOf book name = some 0) :
    ((runCrafts book name invs).2 = 10 →
       cookCountOf (runCrafts book name invs).1 name = some 10 ∧
       masteredOf (runCrafts book name invs).1 name = some true) ∧
    ((runCrafts book name invs).2 = 9 →
       cookCountOf (runCrafts book name invs).1 name = some 9 ∧
       masteredOf (runCrafts book name invs).1 name = some false) ∧
    (∀ r : Recipe, r.cook_count < U32MOD - 1 →
       r.cook_count < (Recipe.increment_cook_count r).cook_count) := by
  obtain ⟨r, hr, hc0⟩ : ∃ r, book.get_recipe name = some r ∧ r.cook_count = 0 := by
    unfold cookCountOf at h0
    cases hg : book.get_recipe name with
    | none => rw [hg] at h0; exact absurd h0 (by simp)
    | some r => rw [hg] at h0; exact ⟨r, rfl, by simpa using h0⟩
  have hrun := runCrafts_get_recipe name invs book r hr (by rw [hc0]; decide)
  rw [hc0] at hrun
  refine ⟨?_, ?_, ?_⟩
  · intro h10
    rw [h10] at hrun
    rw [show ((0 : Nat) + 10) % U32MOD = 10 by decide] at hrun
    constructor
    · unfold cookCountOf
      rw [hrun]
      rfl
    · unfold masteredOf
      rw [hrun]
      rfl
  · intro h9
    rw [h9] at hrun
    rw [show ((0 : Nat) + 9) % U32MOD = 9 by decide] at hrun
    constructor
    · unfold cookCountOf
      rw [hrun]
      rfl
    · unfold masteredOf
      rw [hrun]
      rfl
  · intro r2 hlt
    unfold Recipe.increment_cook_count
    simp only []
    rw [Nat.mod_eq_of_lt (by omega)]
    omega

/-- C5 witness: ten successful bread crafts master the recipe, nine do not. -/
theorem mastery_threshold_witness :
    masteredOf (runCrafts breadBook ("Bread") (List.replicate 10 breadInv)).1 ("Bread") = some true ∧
    masteredOf (runCrafts breadBook ("Bread") (List.replicate 9 breadInv)).1 ("Bread") = some false :=
  ⟨((mastery_threshold breadBook ("Bread") (List.replicate 10 breadInv) (by decide)).1 (by decide)).2,
   ((mastery_threshold breadBook ("Bread") (List.replicate 9 breadInv) (by decide)).2.1 (by decide)).2⟩

/-! ### Counting slots through take/restore -/

theorem countItem_cons (p : Nat × Option Item) (rest : List (Nat × Option Item)) (n : String) :
    countItem (p :: rest) n = countItem rest n + (if itemNamed n p = true then 1 else 0) := by
  simp [countItem, List.countP_cons]

theorem takeFirstNamed_count :
    ∀ (slots : List (Nat × Option Item)) (n : String) (it : Item)
      (slots' : List (Nat × Option Item)),
      takeFirstNamed slots n = some (it, slots') →
      it.name = n ∧ countItem slots' n + 1 = countItem slots n ∧
        ∀ m, m ≠ n → countItem slots' m = countItem slots m := by
  intro slots
  induction slots with
  | nil => intro n it slots' h; exact absurd h (by simp [takeFirstNamed])
  | cons p rest ih =>
      intro n it slots' h
      obtain ⟨slot, o⟩ := p
      cases o with
      | none =>
          rw [takeFirstNamed] at h
          cases hrest : takeFirstNamed rest n with
          | none => rw [hrest] at h; exact absurd h (by simp)
          | some q =>
              obtain ⟨it2, rest2⟩ := q
              rw [hrest] at h
              simp only [Option.map_some'] at h
              injection h with h
              injection h with h1 h2
              subst h1
              subst h2
              obtain ⟨hn, hcount, hframe⟩ := ih n _ rest2 hrest
              refine ⟨hn, ?_, ?_⟩
              · rw [countItem_cons, countItem_cons]
                simp [itemNamed]
                omega
              · intro m hm
                rw [countItem_cons, countItem_cons, hframe m hm]
      | some x =>
          rw [takeFirstNamed] at h
          by_cases hx : x.name = n
          · rw [if_pos hx] at h
            injection h with h
            injection h with h1 h2
            subst h1
            subst h2
            refine ⟨hx, ?_, ?_⟩
            · rw [countItem_cons, countItem_cons]
              simp [itemNamed, hx]
            · intro m hm
              rw [countItem_cons, countItem_cons]
              simp [itemNamed, hx, Ne.symm hm]
          · rw [if_neg hx] at h
            cases hrest : takeFirstNamed rest n with
            | none => rw [hrest] at h; exact absurd h (by simp)
            | some q =>
                obtain ⟨it2, rest2⟩ := q
                rw [hrest] at h
                simp only [Option.map_some'] at h
                injection h with h
                injection h with h1 h2
                subst h1
                subst h2
                obtain ⟨hn, hcount, hframe⟩ := ih n _ rest2 hrest
                refine ⟨hn, ?_, ?_⟩
                · rw [countItem_cons, countItem_cons]
                  cases hb : itemNamed n (slot, some x) <;> simp [hb] <;> omega
                · intro m hm
                  rw [countItem_cons, countItem_cons, hframe m hm]

theorem setFirstEmpty_count :
    ∀ (slots : List (Nat × Option Item)) (it : Item) (slots' : List (Nat × Option Item)),
      setFirstEmpty slots it = some slots' →
      countItem slots' it.name = countItem slots it.name + 1 ∧
        ∀ m, m ≠ it.name → countItem slots' m = countItem slots m := by
  intro slots
  induction slots with
  | nil => intro it slots' h; exact absurd h (by simp [setFirstEmpty])
  | cons p rest ih =>
      intro it slots' h
      obtain ⟨slot, o⟩ := p
      cases o with
      | none =>
          rw [setFirstEmpty] at h
          injection h with h
          subst h
          refine ⟨?_, ?_⟩
          · rw [countItem_cons, countItem_cons]
            simp [itemNamed]
          · intro m hm
            rw [countItem_cons, countItem_cons]
            simp [itemNamed, Ne.symm hm]
      | some x =>
          rw [setFirstEmpty] at h
          cases hrest : setFirstEmpty rest it with
          | none => rw [hrest] at h; exact absurd h (by simp)
          | some rest2 =>
              rw [hrest] at h
              simp only [Option.map_some'] at h
              injection h with h
              subst h
              obtain ⟨hcount, hframe⟩ := ih it rest2 hrest
              refine ⟨?_, ?_⟩
              · rw [countItem_cons, countItem_cons]
                cases hb : itemNamed it.name (slot, some x) <;> simp [hb] <;> omega
              · intro m hm
                rw [countItem_cons, countItem_cons, hframe m hm]

theorem takeFirstNamed_mem_none :
    ∀ (slots : List (Nat × Option Item)) (n : String) (it : Item)
      (slots' : List (Nat × Option Item)),
      takeFirstNamed slots n = some (it, slots') →
      ∃ s, (s, (none : Option Item)) ∈ slots' := by
  intro slots
  induction slots with
  | nil => intro n it slots' h; exact absurd h (by simp [takeFirstNamed])
  | cons p rest ih =>
      intro n it slots' h
      obtain ⟨slot, o⟩ := p
      cases o with
      | none =>
          rw [takeFirstNamed] at h
          cases hrest : takeFirstNamed rest n with
          | none => rw [hrest] at h; exact absurd h (by simp)
          | some q =>
              rw [hrest] at h
              simp only [Option.map_some'] at h
              injection h with h
              injection h with h1 h2
              subst h2
              exact ⟨slot, List.mem_cons_self _ _⟩
      | some x =>
          rw [takeFirstNamed] at h
          by_cases hx : x.name = n
          · rw [if_pos hx] at h
            injection h with h
            injection h with h1 h2
            subst h2
            exact ⟨slot, List.mem_cons_self _ _⟩
          · rw [if_neg hx] at h
            cases hrest : takeFirstNamed rest n with
            | none => rw [hrest] at h; exact absurd h (by simp)
            | some q =>
                rw [hrest] at h
                simp only [Option.map_some'] at h
                injection h with h
                injection h with h1 h2
                subst h2
                obtain ⟨s, hs⟩ := ih n q.1 q.2 hrest
                exact ⟨s, List.mem_cons_of_mem _ hs⟩

theorem setFirstEmpty_ne_none :
    ∀ (slots : List (Nat × Option Item)) (it : Item) (s : Nat),
      (s, (none : Option Item)) ∈ slots → setFirstEmpty slots it ≠ none := by
  intro slots
  induction slots with
  | nil => intro it s hs; exact absurd hs (List.not_mem_nil _)
  | cons p rest ih =>
      intro it s hs
      obtain ⟨slot, o⟩ := p
      cases o with
      | none => simp [setFirstEmpty]
      | some x =>
          rw [setFirstEmpty]
          rcases List.mem_cons.mp hs with heq | hmem
          · injection heq with h1 h2
            exact absurd h2 (by simp)
          · cases hr : setFirstEmpty rest it with
            | none => exact absurd hr (ih it s hmem)
            | some rest2 => simp

/-- C2 counterexample: the destination is full, so `transfer_item` errors and
restores the sword — but into slot 0 of the source, not its original slot 1,
so the source inventory is not identical to its state before the call. -/
theorem transfer_item_not_identical_counterexample :
    (transfer_item srcInv dstInv ("Sword")).1 = Except.error ("Destination inventory is full") ∧
      (transfer_item srcInv dstInv ("Sword")).2.1 ≠ srcInv ∧
      (transfer_item srcInv dstInv ("Sword")).2.2 = dstInv := by
  refine ⟨rfl, ?_, rfl⟩
  decide

/-- C2 (amended): `transfer_item` is atomic at the level of item multisets.
On success the item is removed from the source (its count drops by one) and
placed in an empty slot of the destination (its count rises by one); on a
destination-full error the destination is untouched and the source holds
exactly the same number of every item as before — the removed item is
restored, though possibly to a different empty slot, so the source need not
be byte-for-byte identical; on an item-not-found error both inventories are
returned untouched.  The item never ends up in neither or both inventories. -/
theorem transfer_item_atomic (from_inventory to_inventory : PlayerInventory)
    (item_name : String) (res : Except String Unit) (f' t' : PlayerInventory)
    (h : transfer_item from_inventory to_inventory item_name = (res, f', t')) :
    (res = Except.ok () →
       countItem f'.slots item_name + 1 = countItem from_inventory.slots item_name ∧
       countItem t'.slots item_name = countItem to_inventory.slots item_name + 1 ∧
       ∀ m, m ≠ item_name →
         countItem f'.slots m = countItem from_inventory.slots m ∧
         countItem t'.slots m = countItem to_inventory.slots m) ∧
    (res = Except.error ("Destination inventory is full") →
       (∀ m, countItem f'.slots m = countItem from_inventory.slots m) ∧ t' = to_inventory) ∧
    (res = Except.error ("Item not found in source inventory") →
       f' = from_inventory ∧ t' = to_inventory) := by
  unfold transfer_item at h
  cases htake : takeFirstNamed from_inventory.slots item_name with
  | none =>
      rw [htake] at h
      injection h with h1 h2
      injection h2 with h2 h3
      subst h1
      subst h2
      subst h3
      refine ⟨?_, ?_, ?_⟩
      · intro hc; exact absurd hc (by simp)
      · intro hc
        injection hc with hs
        exact absurd hs (by decide)
      · intro _; exact ⟨rfl, rfl⟩
  | some q =>
      obtain ⟨item, fromSlots⟩ := q
      rw [htake] at h
      replace h :
          (match setFirstEmpty to_inventory.slots item with
           | some toSlots => (Except.ok (), ⟨fromSlots⟩, ⟨toSlots⟩)
           | none =>
               match setFirstEmpty fromSlots item with
               | some restored =>
                   (Except.error ("Destination inventory is full"), ⟨restored⟩, to_inventory)
               | none =>
                   (Except.error ("Destination inventory is full"), ⟨fromSlots⟩, to_inventory) :
           Except String Unit × PlayerInventory × PlayerInventory) = (res, f', t') := h
      obtain ⟨hn, hcount, hframe⟩ :=
        takeFirstNamed_count from_inventory.slots item_name item fromSlots htake
      cases hput : setFirstEmpty to_inventory.slots item with
      | some toSlots =>
          rw [hput] at h
          injection h with h1 h2
          injection h2 with h2 h3
          subst h1
          subst h2
          subst h3
          obtain ⟨hset1, hset2⟩ := setFirstEmpty_count to_inventory.slots item toSlots hput
          refine ⟨?_, ?_, ?_⟩
          · intro _
            refine ⟨hcount, ?_, ?_⟩
            · show countItem toSlots item_name = countItem to_inventory.slots item_name + 1
              rw [← hn]
              exact hset1
            · intro m hm
              refine ⟨hframe m hm, ?_⟩
              show countItem toSlots m = countItem to_inventory.slots m
              exact hset2 m (by rw [hn]; exact hm)
          · intro hc; exact absurd hc (by simp)
          · intro hc; exact absurd hc (by simp)
      | none =>
          rw [hput] at h
          cases hres : setFirstEmpty fromSlots item with
          | some restored =>
              rw [hres] at h
              injection h with h1 h2
              injection h2 with h2 h3
              subst h1
              subst h2
              subst h3
              obtain ⟨hres1, hres2⟩ := setFirstEmpty_count fromSlots item restored hres
              refine ⟨?_, ?_, ?_⟩
              · intro hc; exact absurd hc (by simp)
              · intro _
                refine ⟨?_, rfl⟩
                intro m
                show countItem restored m = countItem from_inventory.slots m
                by_cases hm : m = item_name
                · subst hm
                  have h1 := hres1
                  rw [hn] at h1
                  omega
                · exact (hres2 m (by rw [hn]; exact hm)).trans (hframe m hm)
              · intro hc
                injection hc with hs
                exact absurd hs (by decide)
          | none =>
              exfalso
              obtain ⟨s, hs⟩ :=
                takeFirstNamed_mem_none from_inventory.slots item_name item fromSlots htake
              exact setFirstEmpty_ne_none fromSlots item s hs hres

/-- C2 witness: a successful concrete transfer moves the sword out of the
source and into the destination. -/
theorem transfer_item_atomic_witness :
    countItem (PlayerInventory.mk [(0, none), (1, none)]).slots ("Sword") + 1 =
      countItem srcInv.slots ("Sword") :=
  ((transfer_item_atomic srcInv ⟨[(0, none)]⟩ ("Sword") (Except.ok ())
      ⟨[(0, none), (1, none)]⟩ ⟨[(0, some swordItem)]⟩ rfl).1 rfl).1

/-- C8: for a filename ending in neither `.json` nor `.csv`, the importer
returns an error and leaves the catalog — recipe map and crafter index —
exactly as it was; no recipe is added regardless of the file's content. -/
theorem import_unsupported_format
    (jsonParse : String → Except String (List Recipe))
    (csvRows : String → List (Except String Recipe))
    (fs : String → Option String)
    (book : RecipeBook) (filename : String)
    (hj : strEndsWith filename (".json") = false)
    (hc : strEndsWith filename (".csv") = false) :
    (∃ e, (RecipeBook.importRecipesFromFile jsonParse csvRows fs book filename).1 =
        Except.error e) ∧
      (RecipeBook.importRecipesFromFile jsonParse csvRows fs book filename).2 = book := by
  unfold RecipeBook.importRecipesFromFile
  cases fs filename with
  | none => exact ⟨⟨"file open failed", rfl⟩, rfl⟩
  | some content =>
      rw [hj, hc]
      exact ⟨⟨"Unsupported file format", by simp⟩, by simp⟩

/-- C8 witness: importing `recipes.txt` rejects and keeps the bread catalog. -/
theorem import_unsupported_format_witness :
    (RecipeBook.importRecipesFromFile jsonParseW csvRowsW fsW breadBook ("recipes.txt")).2 =
      breadBook :=
  (import_unsupported_format jsonParseW csvRowsW fsW breadBook ("recipes.txt")
    (by decide) (by decide)).2

/-- C9: with a registered player, adding an item while a slot is free and
removing an item that is present both report `Ok(())`, yet the player
inventory registry is returned exactly unchanged on every path: the mutation
only ever touches a local clone that is never written back. -/
theorem inventory_mutations_not_persisted (reg : List (String × PlayerInventory))
    (player_id : String) (item : Item) (item_name : String) (inv : PlayerInventory)
    (hreg : lookupA reg player_id = some inv)
    (hslot : (setFirstEmpty inv.slots item).isSome = true)
    (hfound : (takeFirstNamed inv.slots item_name).isSome = true) :
    add_item_to_player_inventory reg player_id item = (Except.ok (), reg) ∧
      remove_item_from_player_inventory reg player_id item_name = (Except.ok (), reg) := by
  constructor
  · unfold add_item_to_player_inventory get_player_inventory
    rw [hreg]
    show (match setFirstEmpty inv.slots item with
          | some _ => ((Except.ok () : Except String Unit), reg)
          | none => (Except.error ("Inventory is full"), reg)) = (Except.ok (), reg)
    obtain ⟨updated, hu⟩ := Option.isSome_iff_exists.mp hslot
    rw [hu]
  · unfold remove_item_from_player_inventory get_player_inventory
    rw [hreg]
    show (match takeFirstNamed inv.slots item_name with
          | some _ => ((Except.ok () : Except String Unit), reg)
          | none => (Except.error ("Item not found in inventory"), reg)) = (Except.ok (), reg)
    obtain ⟨found, hf⟩ := Option.isSome_iff_exists.mp hfound
    rw [hf]

/-- C9 witness: on the concrete registry both operations report success and
hand back the identical registry value. -/
theorem inventory_mutations_not_persisted_witness :
    add_item_to_player_inventory regW ("alice") rockItem = (Except.ok (), regW) :=
  (inventory_mutations_not_persisted regW ("alice") rockItem ("Sword")
    ⟨[(0, none), (1, some swordItem)]⟩ rfl (by decide) (by decide)).1
